import Mathlib

/-!
Verification development for the MusicRipper acquisition pipeline.

The development shallowly embeds the parts of the repository that the
specification talks about:

* `src/utils.py` : `sanitize_filename`, `sanitize_basename` (pure string
  processing, embedded over `List Char`).
* `src/audio_processor.py` : `validate_mp3_320kbps` together with its helpers
  `_is_format_mp3`, `_is_approx_320kbps` and `_get_duration_ms_from_info`.
  The mediainfo probe and the pydub decoder are external effects; a file is
  therefore modelled by the outcomes those effects can produce
  (`FileModel`), and the heterogeneous Python values stored in a mediainfo
  dictionary are modelled by `PyVal`.
* `src/spotify_downloader.py` : the per-track orchestration of
  `SpotifyDownloader.download_song` and `_execute_download_attempt`.
  Network and filesystem effects (search results, per-candidate probe and
  download outcomes, transcode and validation outcomes, the pre-existing
  artifact and its metadata sidecar) are supplied by a `World`; the
  embedding additionally records the trace of search and download network
  activity so that ordering and short-circuit properties can be stated.
-/

/-! ### Python scalar values and conversions -/

/-- A Python value as it can appear in a mediainfo dictionary entry:
`None`, a number (`int` and `float` are collapsed into one exact rational
constructor, which is faithful for the arithmetic the code performs), or a
string. -/
inductive PyVal where
  | vnone : PyVal
  | vnum (q : ℚ) : PyVal
  | vstr (s : String) : PyVal
  deriving DecidableEq

/-- Python truthiness test for the values of `PyVal` (`None`, `0`, `0.0` and
the empty string are falsy). -/
def pyFalsy : PyVal → Bool
  | .vnone => true
  | .vnum q => decide (q = 0)
  | .vstr s => s.isEmpty

/-- Python `a or b`: returns `a` when `a` is truthy, otherwise `b`. -/
def pyOr (a b : PyVal) : PyVal :=
  if pyFalsy a then b else a

/-- Truncation toward zero, the behaviour of Python `int()` on a number. -/
def pyTrunc (q : ℚ) : Int :=
  if 0 ≤ q then ⌊q⌋ else ⌈q⌉

/-- The characters Python `str.strip()` and the regex class `\s` treat as
whitespace (ASCII portion: space, tab, newline, carriage return, vertical
tab, form feed). -/
def isPySpace (c : Char) : Bool :=
  c == ' ' || c == '\t' || c == '\n' || c == '\r' || c == Char.ofNat 11 || c == Char.ofNat 12

/-- Drop leading characters satisfying `p` (front half of `str.strip`). -/
def dropLeading (p : Char → Bool) (l : List Char) : List Char :=
  l.dropWhile p

/-- Drop trailing characters satisfying `p` (back half of `str.strip`). -/
def dropTrailing (p : Char → Bool) : List Char → List Char
  | [] => []
  | c :: rest =>
    match dropTrailing p rest with
    | [] => if p c then [] else [c]
    | r => c :: r

/-- Python `str.strip` with an arbitrary character class. -/
def stripWhile (p : Char → Bool) (l : List Char) : List Char :=
  dropTrailing p (dropLeading p l)

/-- Value of a decimal digit string. -/
def digitsToNat (ds : List Char) : Nat :=
  ds.foldl (fun n c => n * 10 + (c.toNat - 48)) 0

/-- Parse an unsigned decimal integer literal, as Python `int(str)` does on
the body after sign handling (plain digit runs; exotic forms such as
underscore separators are not modelled). -/
def parseUnsignedInt (l : List Char) : Option Int :=
  if l.isEmpty then none
  else if l.all Char.isDigit then some (Int.ofNat (digitsToNat l)) else none

/-- Python `int()` applied to a string: strip whitespace, optional sign,
then a digit run. -/
def pyIntOfString (s : String) : Option Int :=
  match stripWhile isPySpace s.data with
  | '+' :: rest => parseUnsignedInt rest
  | '-' :: rest => (parseUnsignedInt rest).map Neg.neg
  | t => parseUnsignedInt t

/-- Parse an unsigned decimal literal with an optional fractional part, as
Python `float(str)` does on the body after sign handling (exponents,
`inf`/`nan` and underscore separators are not modelled). -/
def parseUnsignedFloat (l : List Char) : Option ℚ :=
  let intPart := l.takeWhile Char.isDigit
  let rest := l.dropWhile Char.isDigit
  match rest with
  | [] => if intPart.isEmpty then none else some ((digitsToNat intPart : ℚ))
  | '.' :: frac =>
    if frac.all Char.isDigit && (!intPart.isEmpty || !frac.isEmpty) then
      some ((digitsToNat intPart : ℚ) + (digitsToNat frac : ℚ) / (10 ^ frac.length))
    else none
  | _ => none

/-- Python `float()` applied to a string: strip whitespace, optional sign,
then a decimal literal. -/
def pyFloatOfString (s : String) : Option ℚ :=
  match stripWhile isPySpace s.data with
  | '+' :: rest => parseUnsignedFloat rest
  | '-' :: rest => (parseUnsignedFloat rest).map Neg.neg
  | t => parseUnsignedFloat t

/-- Python `int()` applied to an arbitrary value: numbers truncate toward
zero, strings are parsed as integer literals, `None` raises (`none`). -/
def pyInt : PyVal → Option Int
  | .vnone => none
  | .vnum q => some (pyTrunc q)
  | .vstr s => pyIntOfString s

/-! ### Substring search (Python `needle in haystack`) -/

/-- Whether `n` is a leading run of `l`. -/
def startsWithL : List Char → List Char → Bool
  | [], _ => true
  | _ :: _, [] => false
  | a :: as, b :: bs => a == b && startsWithL as bs

/-- Whether `n` occurs contiguously inside `l` (Python `n in l` on strings). -/
def containsSub (n : List Char) : List Char → Bool
  | [] => n.isEmpty
  | c :: rest => startsWithL n (c :: rest) || containsSub n rest

/-- Character-wise lower casing of a string (Python `str.lower`, ASCII). -/
def lowerChars (s : String) : List Char :=
  s.data.map Char.toLower

/-! ### `src/audio_processor.py` : the artifact validator

A mediainfo dictionary is modelled by the five entries the validator
consults; an absent key is `vnone` (for `format_name`, where the code uses
the default `""`, absence is `none`). -/

/-- The fields of the probed mediainfo dictionary that
`validate_mp3_320kbps` reads. -/
structure MediaInfo where
  format_name : Option String
  bit_rate : PyVal
  bitrate : PyVal
  duration_ms : PyVal
  duration : PyVal
  deriving DecidableEq

/-- `_is_format_mp3`: the lower-cased `format_name` (default `""`) must
contain `"mp3"`. -/
def is_format_mp3 (info : MediaInfo) : Bool :=
  containsSub "mp3".data (lowerChars (info.format_name.getD ""))

/-- The value `info.get("bit_rate") or info.get("bitrate") or "0"`. -/
def bitRateValue (info : MediaInfo) : PyVal :=
  pyOr info.bit_rate (pyOr info.bitrate (PyVal.vstr "0"))

/-- `_is_approx_320kbps`: parse the bitrate with `int()`; a parse failure is
`False`; otherwise require `315000 <= bit_rate <= 325000`. -/
def is_approx_320kbps (info : MediaInfo) : Bool :=
  match pyInt (bitRateValue info) with
  | none => false
  | some b => decide (315000 ≤ b) && decide (b ≤ 325000)

/-- `_get_duration_ms_from_info`: read `duration_ms or duration`; `None`
yields no duration; a number `v` yields `int(float(v))` when `v >= 1` and
`int(v * 1000)` otherwise; a string is parsed with `float()` (failure
yields no duration) and the parsed value `parsed` yields `int(parsed)` when
`parsed > 1000` (already milliseconds) and `int(parsed * 1000)` otherwise
(seconds). -/
def get_duration_ms_from_info (info : MediaInfo) : Option Int :=
  match pyOr info.duration_ms info.duration with
  | .vnone => none
  | .vnum q => some (pyTrunc (if 1 ≤ q then q else q * 1000))
  | .vstr s =>
    match pyFloatOfString s with
    | none => none
    | some parsed =>
      some (if 1000 < parsed then pyTrunc parsed else pyTrunc (parsed * 1000))

/-- The observable behaviour of one file path under the external probe and
decode effects: whether the path exists, what `_get_mediainfo_safe` returns
(`none` models every probe failure), and what
`AudioSegment.from_file(...).duration_seconds` returns (`none` models a
decode failure). -/
structure FileModel where
  fexists : Bool
  info : Option MediaInfo
  pydubDurationS : Option ℚ
  deriving DecidableEq

/-- The actual duration used by the duration check: prefer the mediainfo
value, fall back to the pydub decode (`int(duration_seconds * 1000)`). -/
def actualDurationMs (f : FileModel) (info : MediaInfo) : Option Int :=
  match get_duration_ms_from_info info with
  | some a => some a
  | none =>
    match f.pydubDurationS with
    | some q => some (pyTrunc (q * 1000))
    | none => none

/-- Default duration tolerance of the validator (milliseconds). -/
def DEFAULT_DURATION_TOLERANCE_MS : Int := 5000

/-- `validate_mp3_320kbps(file_path, expected_duration_ms,
duration_tolerance_ms)`: the path must exist, the probe must succeed, the
format and bitrate gates must pass, and, when an expected duration is
supplied, the actual duration must be determined and lie within the
inclusive tolerance bounds. Every error path of the source returns
`False`. -/
def validate_mp3_320kbps (f : FileModel) (expected_duration_ms : Option Int)
    (duration_tolerance_ms : Int) : Bool :=
  if f.fexists = false then false
  else
    match f.info with
    | none => false
    | some info =>
      if !(is_format_mp3 info && is_approx_320kbps info) then false
      else
        match expected_duration_ms with
        | none => true
        | some expected =>
          match actualDurationMs f info with
          | none => false
          | some actual =>
            decide (expected - duration_tolerance_ms ≤ actual) &&
              decide (actual ≤ expected + duration_tolerance_ms)

/-! ### `src/utils.py` : the filename sanitizer -/

/-- The characters `sanitize_filename` replaces: the regex class
`[<>:"/\\|?*]`. -/
def badChars : List Char :=
  ['<', '>', ':', '"', '/', '\\', '|', '?', '*']

/-- Membership in `badChars`. -/
def isBad (c : Char) : Bool :=
  decide (c ∈ badChars)

/-- Membership in the regex class `[\s_]`. -/
def isUS (c : Char) : Bool :=
  isPySpace c || c == '_'

/-- `re.sub(r'[<>:"/\\|?*]', '_', s)`. -/
def replaceBad (l : List Char) : List Char :=
  l.map (fun c => if isBad c then '_' else c)

/-- `re.sub(r'[\s_]+', '_', s)`: every maximal run of whitespace and
underscores becomes a single underscore. -/
def collapseUS : List Char → List Char
  | [] => []
  | [c] => [if isUS c then '_' else c]
  | a :: b :: rest =>
    if isUS a && isUS b then collapseUS (b :: rest)
    else (if isUS a then '_' else a) :: collapseUS (b :: rest)

/-- `sanitize_filename` at the character-list level. `none` models the
`ValueError` raised for a blank input or an input that reduces to the empty
string after sanitization. -/
def sanitizeList (l : List Char) : Option (List Char) :=
  let trimmed := stripWhile isPySpace l
  if trimmed.isEmpty then none
  else
    let s := stripWhile (fun c => c == '_') (collapseUS (replaceBad trimmed))
    if s.isEmpty then none else some s

/-- `sanitize_filename(filename)`. The input is typed `String`, so the
`TypeError` branch of the source cannot arise; `none` is the `ValueError`
branch. -/
def sanitize_filename (s : String) : Option String :=
  (sanitizeList s.data).map (fun l => String.mk l)

/-- `os.path.basename` (POSIX): the characters after the last `/`. -/
def basename (s : String) : String :=
  String.mk (((s.data.reverse.takeWhile (fun c => c != '/'))).reverse)

/-- `sanitize_basename(name)`: sanitize the basename; on failure fall back
to the original basename. -/
def sanitize_basename (name : String) : String :=
  match sanitize_filename (basename name) with
  | some s => s
  | none => basename name

/-! ### `src/spotify_downloader.py` : the per-track orchestrator

Constants from the head of the module. -/

/-- `MAX_SEARCH_RESULTS_PER_SOURCE`. -/
def MAX_SEARCH_RESULTS_PER_SOURCE : Nat := 3

/-- `MIN_DURATION_PREFILTER_SECONDS`. -/
def MIN_DURATION_PREFILTER_SECONDS : ℚ := 45

/-- `MIN_AUDIO_BITRATE_KBPS`. -/
def MIN_AUDIO_BITRATE_KBPS : ℚ := 128

/-- Outcome of the per-entry metadata probe used for the bitrate prefilter
(`extract_info(entry_url, download=False)`): the reported `abr`, whether
`vcodec == 'none'`, and the reported `tbr`. A probe that raises is modelled
by `Option.none` at the use site. -/
structure EntryProbe where
  abr : Option ℚ
  vcodecNone : Bool
  tbr : Option ℚ
  deriving DecidableEq

/-- Outcome of downloading one entry: the file materializes on disk, the
download completes but the file is missing, or the download raises. -/
inductive DlOutcome where
  | ok : DlOutcome
  | noFile : DlOutcome
  | err : DlOutcome
  deriving DecidableEq

/-- One search entry as `_execute_download_attempt` sees it: whether a URL
is present, the reported duration in seconds, the probe outcome (`none`
models a probe that raises), and the download outcome. -/
structure Entry where
  hasUrl : Bool
  durationS : Option ℚ
  probe : Option EntryProbe
  dl : DlOutcome
  deriving DecidableEq

/-- How one candidate entry is disposed of by the loop body of
`_execute_download_attempt`. -/
inductive CandDecision where
  | noUrl : CandDecision
  | tooShort : CandDecision
  | probeFailed : CandDecision
  | lowBitrate : CandDecision
  | dlNoFile : CandDecision
  | dlErr : CandDecision
  | dlOk : CandDecision
  deriving DecidableEq

/-- The bitrate figure the prefilter uses: `abr`, falling back to `tbr`
only when `vcodec == 'none'`. -/
def effectiveAbr (p : EntryProbe) : Option ℚ :=
  match p.abr with
  | some a => some a
  | none => if p.vcodecNone then p.tbr else none

/-- Decision taken when the entry reaches the download stage. -/
def dlDecision : DlOutcome → CandDecision
  | .ok => .dlOk
  | .noFile => .dlNoFile
  | .err => .dlErr

/-- Whether a decision involved actually issuing the download. -/
def isDlAttempt : CandDecision → Bool
  | .dlOk => true
  | .dlNoFile => true
  | .dlErr => true
  | _ => false

/-- The duration prefilter condition:
`entry_duration_sec is not None and entry_duration_sec < 45`. -/
def durationTooShort (e : Entry) : Bool :=
  match e.durationS with
  | some d => decide (d < MIN_DURATION_PREFILTER_SECONDS)
  | none => false

/-- The loop body of `_execute_download_attempt` for one entry: skip when
no URL, skip when the reported duration is too short, skip when the probe
raises, skip when a determinate bitrate is below the floor, otherwise
attempt the download. -/
def entryDecision (e : Entry) : CandDecision :=
  if e.hasUrl = false then .noUrl
  else if durationTooShort e then .tooShort
  else
    match e.probe with
    | none => .probeFailed
    | some p =>
      match effectiveAbr p with
      | some a => if a < MIN_AUDIO_BITRATE_KBPS then .lowBitrate else dlDecision e.dl
      | none => dlDecision e.dl

/-- The candidate loop of `_execute_download_attempt` over the enumerated
entries: stop at index `MAX_SEARCH_RESULTS_PER_SOURCE`, return the index of
the first entry whose download materializes a file, and record the decision
taken for every entry considered. -/
def attemptLoop : List Entry → Nat → List (Nat × CandDecision) × Option Nat
  | [], _ => ([], none)
  | e :: rest, i =>
    if MAX_SEARCH_RESULTS_PER_SOURCE ≤ i then ([], none)
    else
      let d := entryDecision e
      if d = CandDecision.dlOk then ([(i, d)], some i)
      else
        let r := attemptLoop rest (i + 1)
        ((i, d) :: r.1, r.2)

/-- `_execute_download_attempt` given the outcome of the search call:
`none` models a search that raises or returns nothing (the early `return
None` paths); otherwise the candidate loop runs. The returned index stands
for the path of the first successfully downloaded raw audio file. -/
def execute_download_attempt : Option (List Entry) → List (Nat × CandDecision) × Option Nat
  | none => ([], none)
  | some entries => attemptLoop entries 0

/-- The download attempts, tagged with the source index, extracted from a
decision trace. -/
def dlAttemptsOf (s : Nat) (decs : List (Nat × CandDecision)) : List (Nat × Nat) :=
  decs.filterMap (fun p => if isDlAttempt p.2 then some (s, p.1) else none)

/-- State of the metadata sidecar next to an existing artifact: missing;
unreadable or unparseable for one of the reasons the except clause catches
(`json.JSONDecodeError`, `PermissionError`, `OSError`); bytes that are not
valid UTF-8 (reading them raises `UnicodeDecodeError`, which is NOT in
that tuple); or parsed JSON whose `download_source` key may be absent. -/
inductive SidecarState where
  | missing : SidecarState
  | corrupt : SidecarState
  | notUtf8 : SidecarState
  | parsed (src : Option String) : SidecarState
  deriving DecidableEq

/-- The sidecar-read block of `download_song` for a pre-existing valid
artifact: the parsed `download_source` when the sidecar is readable and
has the key, the default `"Unknown/Existing"` when it is missing or its
read/parse failure is caught by the except clause, and `Except.error` for
the `UnicodeDecodeError` of a non-UTF-8 sidecar, which the clause
`except (json.JSONDecodeError, PermissionError, OSError)` does not catch
and which therefore escapes `download_song`. -/
def readSidecarSource : SidecarState → Except Unit String
  | .missing => .ok "Unknown/Existing"
  | .corrupt => .ok "Unknown/Existing"
  | .notUtf8 => .error ()
  | .parsed (some s) => .ok s
  | .parsed none => .ok "Unknown/Existing"

/-- The external world one `download_song` call interacts with: the
pre-existing artifact and its validation outcome, the sidecar state, the
search outcome per source, and the transcode and validation oracles indexed
by source index and winning candidate index. -/
structure World where
  finalExists : Bool
  existingValid : Bool
  sidecar : SidecarState
  searchSoundCloud : Option (List Entry)
  searchYouTube : Option (List Entry)
  transcodeOk : Nat → Nat → Bool
  validateOk : Nat → Nat → Bool

/-- The observable outcome of `download_song`: whether a validated path was
returned, the recorded source name, whether a file remains at the final
artifact path when the call returns, and the traces of search calls (by
source index) and download attempts (source index, candidate index). -/
structure DSResult where
  success : Bool
  sourceName : Option String
  finalFileExists : Bool
  searches : List Nat
  dls : List (Nat × Nat)
  deriving DecidableEq

/-- `sources_to_try`: SoundCloud then YouTube, in that fixed order. -/
def sourcesToTry (w : World) : List (String × Option (List Entry)) :=
  [("SoundCloud", w.searchSoundCloud), ("YouTube", w.searchYouTube)]

/-- The source loop of `download_song`: run `_execute_download_attempt` for
the source; when a raw file is obtained, transcode (a failed transcode
leaves no partial file: `convert_to_mp3_320kbps` removes it) and validate
(a failed validation removes the file); the first transcoded and validated
candidate ends the loop; any other outcome advances to the next source.
The trailing cleanup of `download_song` removes the final path when no
candidate succeeded, so the file exists at return exactly on success. -/
def sourceLoop (w : World) :
    List (String × Option (List Entry)) → Nat → List Nat → List (Nat × Nat) → DSResult
  | [], _, searchAcc, dlAcc => ⟨false, none, false, searchAcc, dlAcc⟩
  | (srcName, searchRes) :: rest, s, searchAcc, dlAcc =>
    let att := execute_download_attempt searchRes
    let searchAcc2 := searchAcc ++ [s]
    let dlAcc2 := dlAcc ++ dlAttemptsOf s att.1
    match att.2 with
    | none => sourceLoop w rest (s + 1) searchAcc2 dlAcc2
    | some j =>
      if w.transcodeOk s j then
        if w.validateOk s j then ⟨true, some srcName, true, searchAcc2, dlAcc2⟩
        else sourceLoop w rest (s + 1) searchAcc2 dlAcc2
      else sourceLoop w rest (s + 1) searchAcc2 dlAcc2

/-- `SpotifyDownloader.download_song` including the execution where an
exception escapes it: when the final artifact already exists and
validates, read the sidecar — a non-UTF-8 sidecar makes that read raise
`UnicodeDecodeError` past the except clause (`Except.error`), any other
outcome returns the artifact with the sidecar-derived source and no
network activity; otherwise run the source loop, which never raises. -/
def download_song_checked (w : World) : Except Unit DSResult :=
  if w.finalExists && w.existingValid then
    match readSidecarSource w.sidecar with
    | .error e => .error e
    | .ok src => .ok ⟨true, some src, true, [], []⟩
  else
    .ok (sourceLoop w (sourcesToTry w) 0 [] [])

/-- The value `SpotifyDownloader.download_song` returns on the executions
where it does return; the execution where the uncaught
`UnicodeDecodeError` escapes instead is modelled by
`download_song_checked` (see `download_song_checked_ok`), and the value
chosen here on that branch is never cited by a theorem — every theorem
below about `download_song` either excludes the existing-artifact branch
or fixes a sidecar whose read does not raise. -/
def download_song (w : World) : DSResult :=
  if w.finalExists && w.existingValid then
    match readSidecarSource w.sidecar with
    | .ok src => ⟨true, some src, true, [], []⟩
    | .error _ => ⟨true, some "Unknown/Existing", true, [], []⟩
  else
    sourceLoop w (sourcesToTry w) 0 [] []

/-- On every execution that does not hit the non-UTF-8 sidecar in the
existing-artifact branch, `download_song_checked` returns
`download_song`. -/
theorem download_song_checked_ok {w : World}
    (h : w.sidecar ≠ SidecarState.notUtf8 ∨
      (w.finalExists && w.existingValid) = false) :
    download_song_checked w = Except.ok (download_song w) := by
  unfold download_song_checked download_song
  by_cases hc : (w.finalExists && w.existingValid) = true
  · rw [if_pos hc, if_pos hc]
    rcases h with h | h
    · cases hs : w.sidecar with
      | missing => rfl
      | corrupt => rfl
      | notUtf8 => exact absurd hs h
      | parsed src => cases src <;> rfl
    · rw [h] at hc
      exact absurd hc (by simp)
  · rw [if_neg hc, if_neg hc]

/-! ### Helper lemmas: stripping and collapsing -/

theorem dropWhile_eq_self_of_all {p : Char → Bool} {l : List Char}
    (h : ∀ c ∈ l, p c = false) : l.dropWhile p = l := by
  cases l with
  | nil => rfl
  | cons a rest => simp [List.dropWhile_cons, h a (List.mem_cons_self a rest)]

theorem dropWhile_head_false {p : Char → Bool} :
    ∀ {l : List Char} {c : Char} {r : List Char},
      l.dropWhile p = c :: r → p c = false := by
  intro l
  induction l with
  | nil => intro c r h; simp [List.dropWhile] at h
  | cons a rest ih =>
    intro c r h
    by_cases hp : p a
    · rw [List.dropWhile_cons, if_pos hp] at h
      exact ih h
    · rw [List.dropWhile_cons, if_neg hp] at h
      cases h
      simpa using hp

theorem dropWhile_dropWhile_self {p : Char → Bool} (l : List Char) :
    (l.dropWhile p).dropWhile p = l.dropWhile p := by
  cases h : l.dropWhile p with
  | nil => rfl
  | cons c r =>
    rw [List.dropWhile_cons, if_neg]
    simp [dropWhile_head_false h]

theorem mem_dropWhile {p : Char → Bool} {l : List Char} {c : Char}
    (h : c ∈ l.dropWhile p) : c ∈ l :=
  (List.dropWhile_sublist p (l := l)).mem h

theorem mem_dropTrailing {p : Char → Bool} :
    ∀ {l : List Char} {c : Char}, c ∈ dropTrailing p l → c ∈ l := by
  intro l
  induction l with
  | nil => intro c h; simp [dropTrailing] at h
  | cons a rest ih =>
    intro c h
    cases hr : dropTrailing p rest with
    | nil =>
      by_cases hp : p a
      · simp [dropTrailing, hr, hp] at h
      · simp [dropTrailing, hr, hp] at h
        simp [h]
    | cons x xs =>
      simp only [dropTrailing, hr] at h
      rcases List.mem_cons.mp h with h1 | h1
      · simp [h1]
      · exact List.mem_cons_of_mem a (ih (hr ▸ h1))

theorem mem_stripWhile {p : Char → Bool} {l : List Char} {c : Char}
    (h : c ∈ stripWhile p l) : c ∈ l :=
  mem_dropWhile (mem_dropTrailing h)

theorem dropTrailing_cons (p : Char → Bool) (a : Char) (rest : List Char) :
    dropTrailing p (a :: rest) =
      match dropTrailing p rest with
      | [] => if p a then [] else [a]
      | r => a :: r := rfl

theorem dropTrailing_eq_self_of_all {p : Char → Bool} :
    ∀ {l : List Char}, (∀ c ∈ l, p c = false) → dropTrailing p l = l := by
  intro l
  induction l with
  | nil => intro _; rfl
  | cons a rest ih =>
    intro h
    have hrest : dropTrailing p rest = rest :=
      ih (fun c hc => h c (List.mem_cons_of_mem a hc))
    rw [dropTrailing_cons, hrest]
    cases rest with
    | nil => simp [h a (List.mem_cons_self a [])]
    | cons x xs => rfl

theorem stripWhile_eq_self_of_all {p : Char → Bool} {l : List Char}
    (h : ∀ c ∈ l, p c = false) : stripWhile p l = l := by
  unfold stripWhile dropLeading
  rw [dropWhile_eq_self_of_all h, dropTrailing_eq_self_of_all h]

theorem dropTrailing_idem {p : Char → Bool} :
    ∀ (l : List Char), dropTrailing p (dropTrailing p l) = dropTrailing p l := by
  intro l
  induction l with
  | nil => rfl
  | cons a rest ih =>
    rw [dropTrailing_cons]
    cases hr : dropTrailing p rest with
    | nil =>
      by_cases hp : p a
      · simp [dropTrailing, hp]
      · simp [dropTrailing, hp]
    | cons x xs =>
      rw [hr] at ih
      simp only []
      rw [dropTrailing_cons, ih]

theorem dropTrailing_head {p : Char → Bool} (a : Char) (rest : List Char) :
    dropTrailing p (a :: rest) = [] ∨
      ∃ r, dropTrailing p (a :: rest) = a :: r := by
  cases hr : dropTrailing p rest with
  | nil =>
    by_cases hp : p a
    · left; simp [dropTrailing, hr, hp]
    · right; exact ⟨[], by simp [dropTrailing, hr, hp]⟩
  | cons x xs =>
    right; exact ⟨x :: xs, by simp [dropTrailing, hr]⟩

theorem stripWhile_idem {p : Char → Bool} (l : List Char) :
    stripWhile p (stripWhile p l) = stripWhile p l := by
  unfold stripWhile dropLeading
  have hdrop : (dropTrailing p (l.dropWhile p)).dropWhile p
      = dropTrailing p (l.dropWhile p) := by
    cases hd : l.dropWhile p with
    | nil => simp [dropTrailing]
    | cons c r =>
      rcases dropTrailing_head (p := p) c r with h | ⟨t, h⟩
      · simp [h]
      · rw [h, List.dropWhile_cons, if_neg]
        simp [dropWhile_head_false hd]
  rw [hdrop, dropTrailing_idem]

/-! ### Helper lemmas: `collapseUS` -/

theorem mem_collapseUS : ∀ {l : List Char} {c : Char},
    c ∈ collapseUS l → c = '_' ∨ c ∈ l := by
  intro l
  induction l with
  | nil => intro c h; simp [collapseUS] at h
  | cons a rest ih =>
    intro c h
    cases rest with
    | nil =>
      by_cases hu : isUS a
      · simp [collapseUS, hu] at h; left; exact h
      · simp [collapseUS, hu] at h; right; simp [h]
    | cons b rest2 =>
      by_cases hab : isUS a && isUS b
      · rw [show collapseUS (a :: b :: rest2) = collapseUS (b :: rest2) by
          simp [collapseUS, hab]] at h
        rcases ih h with h1 | h1
        · left; exact h1
        · right; exact List.mem_cons_of_mem a h1
      · rw [show collapseUS (a :: b :: rest2)
            = (if isUS a then '_' else a) :: collapseUS (b :: rest2) by
          simp [collapseUS, hab]] at h
        rcases List.mem_cons.mp h with h1 | h1
        · by_cases hu : isUS a
          · left; simpa [hu] using h1
          · right; rw [if_neg hu] at h1; simp [h1]
        · rcases ih h1 with h2 | h2
          · left; exact h2
          · right; exact List.mem_cons_of_mem a h2

theorem us_mem_collapseUS : ∀ {l : List Char} {c : Char},
    c ∈ collapseUS l → isUS c = true → c = '_' := by
  intro l
  induction l with
  | nil => intro c h; simp [collapseUS] at h
  | cons a rest ih =>
    intro c h hus
    cases rest with
    | nil =>
      by_cases hu : isUS a
      · simpa [collapseUS, hu] using h
      · simp [collapseUS, hu] at h
        rw [h] at hus
        simp [hus] at hu
    | cons b rest2 =>
      by_cases hab : isUS a && isUS b
      · rw [show collapseUS (a :: b :: rest2) = collapseUS (b :: rest2) by
          simp [collapseUS, hab]] at h
        exact ih h hus
      · rw [show collapseUS (a :: b :: rest2)
            = (if isUS a then '_' else a) :: collapseUS (b :: rest2) by
          simp [collapseUS, hab]] at h
        rcases List.mem_cons.mp h with h1 | h1
        · by_cases hu : isUS a
          · simpa [hu] using h1
          · rw [if_neg hu] at h1
            rw [h1] at hus
            simp [hus] at hu
        · exact ih h1 hus

/-- No two adjacent characters both lie in the class `[\s_]`. -/
def noAdjUS : List Char → Bool
  | a :: b :: rest => (!(isUS a && isUS b)) && noAdjUS (b :: rest)
  | _ => true

theorem noAdjUS_cons2 (a b : Char) (rest : List Char) :
    noAdjUS (a :: b :: rest) = ((!(isUS a && isUS b)) && noAdjUS (b :: rest)) := rfl

theorem noAdjUS_tail {a : Char} {l : List Char} (h : noAdjUS (a :: l) = true) :
    noAdjUS l = true := by
  cases l with
  | nil => rfl
  | cons b rest =>
    have h2 : ((!(isUS a && isUS b)) && noAdjUS (b :: rest)) = true := h
    simp only [Bool.and_eq_true] at h2
    exact h2.2

theorem collapseUS_cons_of_not_us {b : Char} (hb : isUS b = false) (rest : List Char) :
    ∃ t, collapseUS (b :: rest) = b :: t := by
  cases rest with
  | nil => exact ⟨[], by simp [collapseUS, hb]⟩
  | cons r rs => exact ⟨collapseUS (r :: rs), by simp [collapseUS, hb]⟩

theorem noAdj_collapseUS : ∀ (l : List Char), noAdjUS (collapseUS l) = true := by
  intro l
  induction l with
  | nil => rfl
  | cons a rest ih =>
    cases rest with
    | nil =>
      cases hu : isUS a <;> simp [collapseUS, hu, noAdjUS]
    | cons b rest2 =>
      by_cases hab : (isUS a && isUS b) = true
      · rw [show collapseUS (a :: b :: rest2) = collapseUS (b :: rest2) by
          simp [collapseUS, hab]]
        exact ih
      · rw [show collapseUS (a :: b :: rest2)
            = (if isUS a then '_' else a) :: collapseUS (b :: rest2) by
          simp [collapseUS, hab]]
        by_cases hua : isUS a = true
        · have hub : isUS b = false := by
            cases hb : isUS b
            · rfl
            · exact absurd (by simp [hua, hb]) hab
          obtain ⟨t, ht⟩ := collapseUS_cons_of_not_us hub rest2
          rw [ht] at ih ⊢
          rw [if_pos hua, noAdjUS_cons2]
          simp [hub, ih]
        · rw [if_neg hua]
          cases hcs : collapseUS (b :: rest2) with
          | nil => rfl
          | cons y ys =>
            rw [hcs] at ih
            rw [noAdjUS_cons2]
            simp [hua, Bool.and_eq_true] at hua ⊢
            simp [hua, ih]

theorem collapseUS_eq_self : ∀ {l : List Char},
    (∀ c ∈ l, isUS c = true → c = '_') → noAdjUS l = true → collapseUS l = l := by
  intro l
  induction l with
  | nil => intro _ _; rfl
  | cons a rest ih =>
    intro hus hadj
    cases rest with
    | nil =>
      by_cases hua : isUS a = true
      · have := hus a (List.mem_cons_self a []) hua
        simp [collapseUS, hua, this]
      · simp [collapseUS, hua]
    | cons b rest2 =>
      have hab : (isUS a && isUS b) = false := by
        have hconj : ((!(isUS a && isUS b)) && noAdjUS (b :: rest2)) = true := hadj
        simp only [Bool.and_eq_true] at hconj
        have := hconj.1
        cases h2 : (isUS a && isUS b)
        · rfl
        · rw [h2] at this; simp at this
      have htail : collapseUS (b :: rest2) = b :: rest2 :=
        ih (fun c hc => hus c (List.mem_cons_of_mem a hc)) (noAdjUS_tail hadj)
      rw [show collapseUS (a :: b :: rest2)
          = (if isUS a then '_' else a) :: collapseUS (b :: rest2) by
        simp [collapseUS, hab]]
      rw [htail]
      by_cases hua : isUS a = true
      · rw [if_pos hua, hus a (List.mem_cons_self a (b :: rest2)) hua]
      · rw [if_neg hua]

theorem noAdj_dropWhile {p : Char → Bool} : ∀ {l : List Char},
    noAdjUS l = true → noAdjUS (l.dropWhile p) = true := by
  intro l
  induction l with
  | nil => intro _; rfl
  | cons a rest ih =>
    intro h
    rw [List.dropWhile_cons]
    by_cases hp : p a = true
    · rw [if_pos hp]
      exact ih (noAdjUS_tail h)
    · rw [if_neg (by simp [hp])]
      exact h

theorem noAdj_dropTrailing {p : Char → Bool} : ∀ {l : List Char},
    noAdjUS l = true → noAdjUS (dropTrailing p l) = true := by
  intro l
  induction l with
  | nil => intro _; rfl
  | cons a rest ih =>
    intro h
    rw [dropTrailing_cons]
    cases hr : dropTrailing p rest with
    | nil =>
      by_cases hp : p a = true <;> simp [hp, noAdjUS]
    | cons x xs =>
      have hx : noAdjUS (x :: xs) = true := hr ▸ ih (noAdjUS_tail h)
      cases rest with
      | nil => simp [dropTrailing] at hr
      | cons b rest2 =>
        rcases dropTrailing_head (p := p) b rest2 with hd | ⟨r2, hd⟩
        · rw [hd] at hr; exact absurd hr (by simp)
        · rw [hd] at hr
          have hxb : x = b := (List.cons.injEq _ _ _ _ ▸ hr).1.symm
          subst hxb
          rw [noAdjUS_cons2]
          have hconj : ((!(isUS a && isUS x)) && noAdjUS (x :: rest2)) = true := h
          simp only [Bool.and_eq_true] at hconj
          simp only [Bool.and_eq_true]
          exact ⟨hconj.1, hx⟩

theorem noAdj_stripWhile {p : Char → Bool} {l : List Char}
    (h : noAdjUS l = true) : noAdjUS (stripWhile p l) = true :=
  noAdj_dropTrailing (noAdj_dropWhile h)

/-! ### Helper lemmas: the sanitizer output -/

theorem mem_replaceBad {l : List Char} {c : Char} (h : c ∈ replaceBad l) :
    isBad c = false := by
  obtain ⟨a, _, ha⟩ := List.mem_map.mp h
  by_cases hb : isBad a = true
  · rw [if_pos hb] at ha
    rw [← ha]
    decide
  · rw [if_neg hb] at ha
    rw [← ha]
    simpa using hb

theorem replaceBad_eq_self {l : List Char} (h : ∀ c ∈ l, isBad c = false) :
    replaceBad l = l := by
  induction l with
  | nil => rfl
  | cons a rest ih =>
    simp only [replaceBad, List.map_cons]
    rw [if_neg (by simp [h a (List.mem_cons_self a rest)]),
      show rest.map (fun c => if isBad c then '_' else c) = rest from
        ih (fun c hc => h c (List.mem_cons_of_mem a hc))]

theorem sanOut_props {t m : List Char}
    (hm : stripWhile (fun c => c == '_') (collapseUS (replaceBad t)) = m) :
    (∀ c ∈ m, isBad c = false) ∧ (∀ c ∈ m, isUS c = true → c = '_') ∧
      noAdjUS m = true := by
  refine ⟨?_, ?_, ?_⟩
  · intro c hc
    have hc2 : c ∈ collapseUS (replaceBad t) := mem_stripWhile (hm ▸ hc)
    rcases mem_collapseUS hc2 with h1 | h1
    · rw [h1]; decide
    · exact mem_replaceBad h1
  · intro c hc hus
    exact us_mem_collapseUS (mem_stripWhile (hm ▸ hc)) hus
  · exact hm ▸ noAdj_stripWhile (noAdj_collapseUS _)

theorem sanitizeList_some {l m : List Char} (h : sanitizeList l = some m) :
    sanitizeList m = some m ∧ ∀ c ∈ m, isBad c = false := by
  unfold sanitizeList at h
  by_cases ht : (stripWhile isPySpace l).isEmpty = true
  · simp [ht] at h
  · rw [if_neg ht] at h
    by_cases hs : (stripWhile (fun c => c == '_')
        (collapseUS (replaceBad (stripWhile isPySpace l)))).isEmpty = true
    · simp [hs] at h
    · rw [if_neg hs] at h
      have hm : stripWhile (fun c => c == '_')
          (collapseUS (replaceBad (stripWhile isPySpace l))) = m :=
        Option.some.injEq _ _ ▸ h
      obtain ⟨hbad, hus, hadj⟩ := sanOut_props hm
      have hnospace : ∀ c ∈ m, isPySpace c = false := by
        intro c hc
        cases hsp : isPySpace c
        · rfl
        · have : isUS c = true := by simp [isUS, hsp]
          have := hus c hc this
          rw [this] at hsp
          exact absurd hsp (by decide)
      have hmne : m.isEmpty = false := by
        rw [← hm]
        simpa using hs
      constructor
      · unfold sanitizeList
        rw [stripWhile_eq_self_of_all hnospace, if_neg (by simp [hmne]),
          replaceBad_eq_self hbad, collapseUS_eq_self hus hadj, ← hm,
          stripWhile_idem]
        rw [hm, if_neg (by simp [hmne])]
      · exact hbad

theorem collapseUS_all_us : ∀ {l : List Char}, l ≠ [] →
    (∀ c ∈ l, c = '_') → collapseUS l = ['_'] := by
  intro l
  induction l with
  | nil => intro h; exact absurd rfl h
  | cons a rest ih =>
    intro _ h
    cases rest with
    | nil =>
      rw [h a (List.mem_cons_self a [])]
      decide
    | cons b rest2 =>
      have ha := h a (List.mem_cons_self a (b :: rest2))
      have hb := h b (List.mem_cons_of_mem a (List.mem_cons_self b rest2))
      rw [show collapseUS (a :: b :: rest2) = collapseUS (b :: rest2) by
        simp [collapseUS, ha, hb, isUS]]
      exact ih (by simp) (fun c hc => h c (List.mem_cons_of_mem a hc))

theorem isBad_iff_mem {c : Char} : isBad c = true ↔ c ∈ badChars := by
  simp [isBad]

theorem bad_not_space {c : Char} (h : isBad c = true) : isPySpace c = false := by
  rw [isBad_iff_mem] at h
  simp only [badChars, List.mem_cons, List.not_mem_nil, or_false] at h
  rcases h with h | h | h | h | h | h | h | h | h <;> subst h <;> decide

theorem sanitizeList_all_bad {l : List Char} (hne : l ≠ [])
    (h : ∀ c ∈ l, isBad c = true) : sanitizeList l = none := by
  have hnospace : ∀ c ∈ l, isPySpace c = false :=
    fun c hc => bad_not_space (h c hc)
  have hall : ∀ c ∈ replaceBad l, c = '_' := by
    intro c hc
    obtain ⟨a, ha, hfa⟩ := List.mem_map.mp hc
    rw [if_pos (h a ha)] at hfa
    exact hfa.symm
  have hrne : replaceBad l ≠ [] := by
    cases l with
    | nil => exact absurd rfl hne
    | cons x xs => simp [replaceBad]
  unfold sanitizeList
  rw [stripWhile_eq_self_of_all hnospace, if_neg (by simpa using hne),
    collapseUS_all_us hrne hall]
  decide

theorem dropWhile_eq_nil_of_all {p : Char → Bool} : ∀ {l : List Char},
    (∀ c ∈ l, p c = true) → l.dropWhile p = [] := by
  intro l
  induction l with
  | nil => intro _; rfl
  | cons a rest ih =>
    intro h
    rw [List.dropWhile_cons, if_pos (h a (List.mem_cons_self a rest))]
    exact ih (fun c hc => h c (List.mem_cons_of_mem a hc))

theorem sanitizeList_all_space {l : List Char}
    (h : ∀ c ∈ l, isPySpace c = true) : sanitizeList l = none := by
  unfold sanitizeList
  rw [show stripWhile isPySpace l = [] by
    unfold stripWhile dropLeading
    rw [dropWhile_eq_nil_of_all h]
    rfl]
  rfl

theorem string_mk_data (s : String) : String.mk s.data = s := rfl

theorem takeWhile_eq_self_of_all {p : Char → Bool} : ∀ {l : List Char},
    (∀ c ∈ l, p c = true) → l.takeWhile p = l := by
  intro l
  induction l with
  | nil => intro _; rfl
  | cons a rest ih =>
    intro h
    rw [List.takeWhile_cons, if_pos (h a (List.mem_cons_self a rest))]
    rw [ih (fun c hc => h c (List.mem_cons_of_mem a hc))]

theorem space_ne_slash {c : Char} (h : isPySpace c = true) : (c != '/') = true := by
  simp only [isPySpace, Bool.or_eq_true, beq_iff_eq] at h
  rcases h with ((((h | h) | h) | h) | h) | h <;> subst h <;> decide

theorem mem_basename {s : String} {c : Char} (h : c ∈ (basename s).data) :
    c ∈ s.data := by
  simp only [basename] at h
  have h2 : c ∈ s.data.reverse.takeWhile (fun c => c != '/') :=
    List.mem_reverse.mp h
  exact List.mem_reverse.mp ((List.takeWhile_sublist _).mem h2)

theorem sanitizeList_nil : sanitizeList ([] : List Char) = none := rfl

/-- Claim C8: for every string on which sanitization succeeds, the
sanitizer is idempotent (`sanitize(sanitize(x)) == sanitize(x)`) and its
result contains none of the characters `< > : " / \ | ? *`. -/
theorem c8_sanitize_idempotent_and_clean :
    ∀ (x y : String), sanitize_filename x = some y →
      sanitize_filename y = some y ∧ ∀ c ∈ y.data, c ∉ badChars := by
  intro x y h
  unfold sanitize_filename at h
  obtain ⟨m, hm, hmk⟩ := Option.map_eq_some'.mp h
  obtain ⟨hidem, hbad⟩ := sanitizeList_some hm
  have hdata : y.data = m := by rw [← hmk]
  constructor
  · unfold sanitize_filename
    rw [hdata, hidem, Option.map_some']
    rw [hmk]
  · intro c hc hmem
    have h2 := hbad c (hdata ▸ hc)
    rw [isBad_iff_mem.mpr hmem] at h2
    exact absurd h2 (by simp)

/-- Witness for C8 at the concrete input `" My: Song "`. -/
theorem c8_witness :
    sanitize_filename " My: Song " = some "My_Song" ∧
      sanitize_filename "My_Song" = some "My_Song" ∧
      ∀ c ∈ ("My_Song" : String).data, c ∉ badChars := by
  have h1 : sanitize_filename " My: Song " = some "My_Song" := by decide
  have h2 := c8_sanitize_idempotent_and_clean " My: Song " "My_Song" h1
  exact ⟨h1, h2.1, h2.2⟩

/-- Claim C9: an input that is blank or consists solely of invalid filename
characters makes `sanitize_filename` fail with the invalid-input failure
(`none`, the `ValueError` of the source), and the caller-side fallback
`sanitize_basename` catches the failure and returns the original last path
segment instead of propagating it. -/
theorem c9_sanitize_failure_fallback :
    ∀ (s : String),
      ((s.data ≠ [] ∧ ∀ c ∈ s.data, c ∈ badChars) ∨
        (∀ c ∈ s.data, isPySpace c = true)) →
      sanitize_filename s = none ∧ sanitize_basename s = basename s := by
  intro s h
  rcases h with ⟨hne, hmem⟩ | hsp
  · have hall : ∀ c ∈ s.data, isBad c = true :=
      fun c hc => isBad_iff_mem.mpr (hmem c hc)
    have h1 : sanitizeList s.data = none := sanitizeList_all_bad hne hall
    have hsan : sanitize_filename s = none := by
      unfold sanitize_filename
      rw [h1]
      rfl
    refine ⟨hsan, ?_⟩
    unfold sanitize_basename
    have hb : sanitize_filename (basename s) = none := by
      unfold sanitize_filename
      cases hbd : (basename s).data with
      | nil => rw [sanitizeList_nil]; rfl
      | cons x xs =>
        rw [sanitizeList_all_bad (by simp [hbd])
          (fun c hc => hall c (mem_basename (hbd ▸ hc)))]
        rfl
    rw [hb]
  · have h1 : sanitizeList s.data = none := sanitizeList_all_space hsp
    have hsan : sanitize_filename s = none := by
      unfold sanitize_filename
      rw [h1]
      rfl
    have hbe : basename s = s := by
      unfold basename
      rw [takeWhile_eq_self_of_all
        (fun c hc => space_ne_slash (hsp c (List.mem_reverse.mp hc)))]
      rw [List.reverse_reverse, string_mk_data]
    refine ⟨hsan, ?_⟩
    unfold sanitize_basename
    rw [hbe, hsan]

/-- Witness for C9 at the concrete input `"***"`. -/
theorem c9_witness :
    sanitize_filename "***" = none ∧ sanitize_basename "***" = basename "***" :=
  c9_sanitize_failure_fallback "***" (Or.inl ⟨by decide, by decide⟩)

/-! ### Helper lemmas: substring search -/

theorem startsWithL_iff : ∀ {n l : List Char},
    startsWithL n l = true ↔ ∃ r, l = n ++ r := by
  intro n
  induction n with
  | nil => intro l; simp [startsWithL]
  | cons a as ih =>
    intro l
    cases l with
    | nil =>
      simp [startsWithL]
    | cons b bs =>
      simp only [startsWithL, Bool.and_eq_true, beq_iff_eq]
      constructor
      · rintro ⟨rfl, h⟩
        obtain ⟨r, hr⟩ := ih.mp h
        exact ⟨r, by rw [hr]; rfl⟩
      · rintro ⟨r, hr⟩
        injection hr with h1 h2
        exact ⟨h1.symm, ih.mpr ⟨r, h2⟩⟩

theorem containsSub_iff : ∀ {n l : List Char},
    containsSub n l = true ↔ ∃ pre post, l = pre ++ n ++ post := by
  intro n l
  induction l with
  | nil =>
    simp only [containsSub, List.isEmpty_iff]
    constructor
    · intro h
      exact ⟨[], [], by simp [h]⟩
    · rintro ⟨pre, post, hpr⟩
      have h2 := hpr.symm
      simp only [List.append_eq_nil] at h2
      exact h2.1.2
  | cons c rest ih =>
    simp only [containsSub, Bool.or_eq_true]
    constructor
    · rintro (h | h)
      · obtain ⟨r, hr⟩ := startsWithL_iff.mp h
        exact ⟨[], r, by simpa using hr⟩
      · obtain ⟨pre, post, hpr⟩ := ih.mp h
        exact ⟨c :: pre, post, by simp [hpr]⟩
    · rintro ⟨pre, post, hpr⟩
      cases pre with
      | nil =>
        left
        exact startsWithL_iff.mpr ⟨post, by simpa using hpr⟩
      | cons x xs =>
        right
        have h2 : c :: rest = x :: (xs ++ n ++ post) := by simpa using hpr
        injection h2 with h3 h4
        exact ih.mpr ⟨xs, post, h4⟩

/-! ### Claims C2, C3, C7, C10 : the artifact validator -/

/-- Claim C2: for a file that exists and bears probeable audio metadata,
`validate_mp3_320kbps` with no expected duration returns true exactly when
the probed format name contains the target codec name `"mp3"` as a
case-insensitive substring and the probed bitrate, parsed as an integer
number of bits per second, lies in the inclusive interval
`[315000, 325000]`. -/
theorem c2_validate_iff_format_and_bitrate :
    ∀ (info : MediaInfo) (pd : Option ℚ) (tol : Int),
      validate_mp3_320kbps ⟨true, some info, pd⟩ none tol = true ↔
        ((∃ pre post, lowerChars (info.format_name.getD "")
            = pre ++ "mp3".data ++ post) ∧
          ∃ b, pyInt (bitRateValue info) = some b ∧ 315000 ≤ b ∧ b ≤ 325000) := by
  intro info pd tol
  have hL : validate_mp3_320kbps ⟨true, some info, pd⟩ none tol
      = (is_format_mp3 info && is_approx_320kbps info) := by
    unfold validate_mp3_320kbps
    cases h : (is_format_mp3 info && is_approx_320kbps info) <;> simp [h]
  rw [hL, Bool.and_eq_true]
  constructor
  · rintro ⟨h1, h2⟩
    refine ⟨?_, ?_⟩
    · exact containsSub_iff.mp h1
    · unfold is_approx_320kbps at h2
      cases hb : pyInt (bitRateValue info) with
      | none => rw [hb] at h2; exact absurd h2 (by simp)
      | some b =>
        rw [hb] at h2
        simp only [Bool.and_eq_true, decide_eq_true_eq] at h2
        exact ⟨b, rfl, h2.1, h2.2⟩
  · rintro ⟨⟨pre, post, hpr⟩, b, hb, hlo, hhi⟩
    refine ⟨?_, ?_⟩
    · exact containsSub_iff.mpr ⟨pre, post, hpr⟩
    · unfold is_approx_320kbps
      rw [hb]
      simp [hlo, hhi]

/-- Claim C3: when the format and bitrate gates pass and the actual
duration is determined to be `a` milliseconds, `validate_mp3_320kbps` with
expected duration `e` and tolerance `t` returns true exactly when
`|a - e| ≤ t` — the bound is inclusive and symmetric. -/
theorem c3_validate_duration_tolerance :
    ∀ (info : MediaInfo) (pd : Option ℚ) (e t a : Int),
      is_format_mp3 info = true → is_approx_320kbps info = true →
      actualDurationMs ⟨true, some info, pd⟩ info = some a →
      (validate_mp3_320kbps ⟨true, some info, pd⟩ (some e) t = true ↔
        |a - e| ≤ t) := by
  intro info pd e t a h1 h2 ha
  have hL : validate_mp3_320kbps ⟨true, some info, pd⟩ (some e) t
      = (decide (e - t ≤ a) && decide (a ≤ e + t)) := by
    unfold validate_mp3_320kbps
    rw [if_neg (by simp)]
    simp only [h1, h2, Bool.and_self, Bool.not_true, Bool.false_eq_true, if_false]
    rw [ha]
  rw [hL]
  simp only [Bool.and_eq_true, decide_eq_true_eq, abs_sub_le_iff]
  omega

/-- Concrete mediainfo outcome used by the validator witnesses: an mp3
format, a 320000 bps bitrate reported as a string, and a 200000
millisecond duration reported as a number. -/
def infoW : MediaInfo :=
  ⟨some "mp3", PyVal.vstr "320000", PyVal.vnone, PyVal.vnum 200000, PyVal.vnone⟩

/-- Witness for C3: with actual duration 200000 ms and tolerance 5000 ms,
an expected duration of 205000 ms (deviation exactly 5000) passes and an
expected duration of 205001 ms (deviation 5001) fails. -/
theorem c3_witness :
    validate_mp3_320kbps ⟨true, some infoW, none⟩ (some 205000)
        DEFAULT_DURATION_TOLERANCE_MS = true ∧
      validate_mp3_320kbps ⟨true, some infoW, none⟩ (some 205001)
        DEFAULT_DURATION_TOLERANCE_MS = false := by
  have hf : is_format_mp3 infoW = true := by decide
  have hb : is_approx_320kbps infoW = true := by decide
  have ha : actualDurationMs ⟨true, some infoW, none⟩ infoW = some 200000 := by decide
  constructor
  · exact (c3_validate_duration_tolerance infoW none 205000
      DEFAULT_DURATION_TOLERANCE_MS 200000 hf hb ha).mpr (by decide)
  · cases hv : validate_mp3_320kbps ⟨true, some infoW, none⟩ (some 205001)
        DEFAULT_DURATION_TOLERANCE_MS
    · rfl
    · exact absurd ((c3_validate_duration_tolerance infoW none 205001
        DEFAULT_DURATION_TOLERANCE_MS 200000 hf hb ha).mp hv) (by decide)

/-- Claim C7: `validate_mp3_320kbps` is a total boolean predicate; every
probe or decode error configuration (missing file, failed mediainfo probe,
or a requested duration check where both the mediainfo duration and the
pydub decode are unavailable) yields the return value `false` rather than
an escaping exception. -/
theorem c7_validate_error_is_false :
    ∀ (f : FileModel) (e : Option Int) (t : Int),
      (f.fexists = false ∨ f.info = none ∨
        (∃ info, f.info = some info ∧ e ≠ none ∧
          get_duration_ms_from_info info = none ∧ f.pydubDurationS = none)) →
      validate_mp3_320kbps f e t = false := by
  intro f e t h
  rcases h with h | h | ⟨info, hinfo, he, hdur, hpd⟩
  · unfold validate_mp3_320kbps
    rw [h]
    simp
  · unfold validate_mp3_320kbps
    rw [h]
    cases f.fexists <;> simp
  · cases e with
    | none => exact absurd rfl he
    | some e0 =>
      unfold validate_mp3_320kbps
      rw [hinfo]
      cases hfe : f.fexists
      · simp
      · have hact : actualDurationMs f info = none := by
          unfold actualDurationMs
          rw [hdur, hpd]
        by_cases hAB : (is_format_mp3 info && is_approx_320kbps info) = true
        · simp only [hAB, Bool.not_true, Bool.false_eq_true, if_false, hact]
          simp
        · simp only [Bool.not_eq_true'] at hAB
          simp [hAB]

/-- Witness for C7 at a missing file. -/
theorem c7_witness : validate_mp3_320kbps ⟨false, none, none⟩ none 0 = false :=
  c7_validate_error_is_false ⟨false, none, none⟩ none 0 (Or.inl rfl)

/-- Claim C10: in the duration extraction of the validator, a probe
duration given as a numeric string parsing to `v` is multiplied by 1000
(seconds to milliseconds) only when `v ≤ 1000` and returned unchanged when
`v > 1000`, and a non-string numeric duration `v ≥ 1` is returned as
`int(v)` with no conversion. -/
theorem c10_duration_unit_heuristic :
    ∀ (info : MediaInfo),
      (∀ (s : String) (v : ℚ),
        pyOr info.duration_ms info.duration = PyVal.vstr s →
        pyFloatOfString s = some v →
        get_duration_ms_from_info info
          = some (if 1000 < v then pyTrunc v else pyTrunc (v * 1000))) ∧
      (∀ (v : ℚ), pyOr info.duration_ms info.duration = PyVal.vnum v → 1 ≤ v →
        get_duration_ms_from_info info = some (pyTrunc v)) := by
  intro info
  constructor
  · intro s v hs hv
    have hstep : get_duration_ms_from_info info
        = match pyFloatOfString s with
          | none => none
          | some parsed =>
            some (if 1000 < parsed then pyTrunc parsed else pyTrunc (parsed * 1000)) := by
      unfold get_duration_ms_from_info
      rw [hs]
    rw [hstep, hv]
  · intro v hv h1
    have hstep : get_duration_ms_from_info info
        = some (pyTrunc (if 1 ≤ v then v else v * 1000)) := by
      unfold get_duration_ms_from_info
      rw [hv]
    rw [hstep, if_pos h1]

/-- Witness for C10: the string duration `"2000"` (seconds by the backend,
but above the 1000 cutoff) is returned unconverted as 2000 ms, and the
numeric duration 200000 is returned as 200000 ms. -/
theorem c10_witness :
    get_duration_ms_from_info
        ⟨none, PyVal.vnone, PyVal.vnone, PyVal.vnone, PyVal.vstr "2000"⟩
      = some 2000 ∧
    get_duration_ms_from_info
        ⟨none, PyVal.vnone, PyVal.vnone, PyVal.vnum 200000, PyVal.vnone⟩
      = some 200000 := by
  constructor
  · have h := (c10_duration_unit_heuristic
      ⟨none, PyVal.vnone, PyVal.vnone, PyVal.vnone, PyVal.vstr "2000"⟩).1
      "2000" 2000 (by decide) (by decide)
    rw [h]
    decide
  · have h := (c10_duration_unit_heuristic
      ⟨none, PyVal.vnone, PyVal.vnone, PyVal.vnum 200000, PyVal.vnone⟩).2
      200000 (by decide) (by decide)
    rw [h]
    decide

/-! ### Helper lemmas: the candidate loop -/

theorem attemptLoop_nil (i : Nat) : attemptLoop [] i = ([], none) := rfl

theorem attemptLoop_cons_max {i : Nat} (h : MAX_SEARCH_RESULTS_PER_SOURCE ≤ i)
    (e : Entry) (rest : List Entry) : attemptLoop (e :: rest) i = ([], none) := by
  unfold attemptLoop
  rw [if_pos h]

theorem attemptLoop_cons_ok {e : Entry} {i : Nat}
    (hmax : ¬MAX_SEARCH_RESULTS_PER_SOURCE ≤ i)
    (hd : entryDecision e = CandDecision.dlOk) (rest : List Entry) :
    attemptLoop (e :: rest) i = ([(i, CandDecision.dlOk)], some i) := by
  unfold attemptLoop
  rw [if_neg hmax]
  simp [hd]

theorem attemptLoop_cons_next {e : Entry} {i : Nat}
    (hmax : ¬MAX_SEARCH_RESULTS_PER_SOURCE ≤ i)
    (hd : entryDecision e ≠ CandDecision.dlOk) (rest : List Entry) :
    attemptLoop (e :: rest) i
      = ((i, entryDecision e) :: (attemptLoop rest (i + 1)).1,
          (attemptLoop rest (i + 1)).2) := by
  conv_lhs => rw [attemptLoop]
  simp only [if_neg hmax, if_neg hd]

theorem attemptLoop_idx_ge : ∀ (es : List Entry) (i : Nat),
    ∀ p ∈ (attemptLoop es i).1, i ≤ p.1 := by
  intro es
  induction es with
  | nil => intro i p hp; simp [attemptLoop_nil] at hp
  | cons e rest ih =>
    intro i p hp
    by_cases hmax : MAX_SEARCH_RESULTS_PER_SOURCE ≤ i
    · rw [attemptLoop_cons_max hmax] at hp
      simp at hp
    · by_cases hd : entryDecision e = CandDecision.dlOk
      · rw [attemptLoop_cons_ok hmax hd] at hp
        simp at hp
        rw [hp]
      · rw [attemptLoop_cons_next hmax hd] at hp
        rcases List.mem_cons.mp hp with h1 | h1
        · rw [h1]
        · exact Nat.le_of_succ_le (ih (i + 1) p h1)

theorem attemptLoop_pairwise : ∀ (es : List Entry) (i : Nat),
    List.Pairwise (fun p q : Nat × CandDecision => p.1 < q.1)
      (attemptLoop es i).1 := by
  intro es
  induction es with
  | nil => intro i; simp [attemptLoop_nil]
  | cons e rest ih =>
    intro i
    by_cases hmax : MAX_SEARCH_RESULTS_PER_SOURCE ≤ i
    · rw [attemptLoop_cons_max hmax]
      simp
    · by_cases hd : entryDecision e = CandDecision.dlOk
      · rw [attemptLoop_cons_ok hmax hd]
        simp
      · rw [attemptLoop_cons_next hmax hd]
        exact List.pairwise_cons.mpr
          ⟨fun q hq => Nat.lt_of_succ_le (attemptLoop_idx_ge rest (i + 1) q hq),
            ih (i + 1)⟩

theorem attemptLoop_winner : ∀ (es : List Entry) (i j : Nat),
    (attemptLoop es i).2 = some j →
    ∃ pre, (attemptLoop es i).1 = pre ++ [(j, CandDecision.dlOk)] ∧
      ∀ p ∈ pre, p.1 < j := by
  intro es
  induction es with
  | nil => intro i j h; simp [attemptLoop_nil] at h
  | cons e rest ih =>
    intro i j h
    by_cases hmax : MAX_SEARCH_RESULTS_PER_SOURCE ≤ i
    · rw [attemptLoop_cons_max hmax] at h
      simp at h
    · by_cases hd : entryDecision e = CandDecision.dlOk
      · rw [attemptLoop_cons_ok hmax hd] at h ⊢
        simp at h
        refine ⟨[], ?_, by simp⟩
        simp [h]
      · rw [attemptLoop_cons_next hmax hd] at h ⊢
        obtain ⟨pre, heq, hb⟩ := ih (i + 1) j h
        have hij : i < j := by
          have hmem : (j, CandDecision.dlOk) ∈ (attemptLoop rest (i + 1)).1 := by
            rw [heq]
            exact List.mem_append_right _ (List.mem_singleton.mpr rfl)
          exact Nat.lt_of_succ_le (attemptLoop_idx_ge rest (i + 1) _ hmem)
        refine ⟨(i, entryDecision e) :: pre, ?_, ?_⟩
        · simp [heq]
        · intro p hp
          rcases List.mem_cons.mp hp with h1 | h1
          · rw [h1]; exact hij
          · exact hb p h1

theorem eda_winner {sr : Option (List Entry)} {j : Nat}
    (h : (execute_download_attempt sr).2 = some j) :
    ∃ pre, (execute_download_attempt sr).1 = pre ++ [(j, CandDecision.dlOk)] ∧
      ∀ p ∈ pre, p.1 < j := by
  cases sr with
  | none => simp [execute_download_attempt] at h
  | some es => exact attemptLoop_winner es 0 j h

theorem eda_pairwise (sr : Option (List Entry)) :
    List.Pairwise (fun p q : Nat × CandDecision => p.1 < q.1)
      (execute_download_attempt sr).1 := by
  cases sr with
  | none => simp [execute_download_attempt]
  | some es => exact attemptLoop_pairwise es 0

theorem eda_winner_bound {sr : Option (List Entry)} {j : Nat}
    (h : (execute_download_attempt sr).2 = some j) :
    ∀ p ∈ (execute_download_attempt sr).1, p.1 ≤ j := by
  obtain ⟨pre, heq, hb⟩ := eda_winner h
  intro p hp
  rw [heq] at hp
  rcases List.mem_append.mp hp with h1 | h1
  · exact Nat.le_of_lt (hb p h1)
  · rw [List.mem_singleton.mp h1]

theorem mem_dlAttemptsOf {s : Nat} {decs : List (Nat × CandDecision)} {q : Nat × Nat}
    (h : q ∈ dlAttemptsOf s decs) :
    q.1 = s ∧ ∃ d, (q.2, d) ∈ decs ∧ isDlAttempt d = true := by
  unfold dlAttemptsOf at h
  obtain ⟨p, hp, hq⟩ := List.mem_filterMap.mp h
  by_cases hd : isDlAttempt p.2 = true
  · rw [if_pos hd] at hq
    have hq2 : (s, p.1) = q := Option.some.injEq _ _ ▸ hq
    refine ⟨by rw [← hq2], p.2, ?_, hd⟩
    have : (q.2, p.2) = p := by
      rw [← hq2]
    rw [this]
    exact hp
  · rw [if_neg hd] at hq
    exact absurd hq (by simp)

theorem dlAttemptsOf_pairwise {s : Nat} {decs : List (Nat × CandDecision)}
    (h : List.Pairwise (fun p q : Nat × CandDecision => p.1 < q.1) decs) :
    List.Pairwise (fun p q : Nat × Nat => p.1 < q.1 ∨ (p.1 = q.1 ∧ p.2 < q.2))
      (dlAttemptsOf s decs) := by
  unfold dlAttemptsOf
  induction decs with
  | nil => simp
  | cons a rest ih =>
    have h2 := (List.pairwise_cons.mp h).2
    have h1 := (List.pairwise_cons.mp h).1
    rw [List.filterMap_cons]
    by_cases hd : isDlAttempt a.2 = true
    · rw [if_pos hd]
      refine List.pairwise_cons.mpr ⟨?_, ih h2⟩
      intro q hq
      obtain ⟨p, hp, hpq⟩ := List.mem_filterMap.mp hq
      by_cases hdp : isDlAttempt p.2 = true
      · rw [if_pos hdp] at hpq
        have hq2 : (s, p.1) = q := Option.some.injEq _ _ ▸ hpq
        right
        rw [← hq2]
        exact ⟨rfl, h1 p hp⟩
      · rw [if_neg hdp] at hpq
        exact absurd hpq (by simp)
    · rw [if_neg hd]
      exact ih h2

theorem dlAttemptsOf_append (s : Nat) (d1 d2 : List (Nat × CandDecision)) :
    dlAttemptsOf s (d1 ++ d2) = dlAttemptsOf s d1 ++ dlAttemptsOf s d2 :=
  List.filterMap_append d1 d2 _

theorem dlAttemptsOf_winner {s j : Nat} {decs pre : List (Nat × CandDecision)}
    (h : decs = pre ++ [(j, CandDecision.dlOk)]) :
    dlAttemptsOf s decs = dlAttemptsOf s pre ++ [(s, j)] := by
  rw [h, dlAttemptsOf_append]
  rfl

/-! ### Helper lemmas: the source loop -/

theorem sourceLoop_nil (w : World) (s : Nat) (sa : List Nat) (da : List (Nat × Nat)) :
    sourceLoop w [] s sa da = ⟨false, none, false, sa, da⟩ := rfl

theorem sourceLoop_cons_none {sr : Option (List Entry)}
    (h : (execute_download_attempt sr).2 = none)
    (w : World) (n : String) (rest : List (String × Option (List Entry)))
    (s : Nat) (sa : List Nat) (da : List (Nat × Nat)) :
    sourceLoop w ((n, sr) :: rest) s sa da
      = sourceLoop w rest (s + 1) (sa ++ [s])
          (da ++ dlAttemptsOf s (execute_download_attempt sr).1) := by
  conv_lhs => rw [sourceLoop]
  simp only [h]

theorem sourceLoop_cons_some_success {sr : Option (List Entry)} {j : Nat}
    (hj : (execute_download_attempt sr).2 = some j)
    {w : World} {s : Nat} (ht : w.transcodeOk s j = true) (hv : w.validateOk s j = true)
    (n : String) (rest : List (String × Option (List Entry)))
    (sa : List Nat) (da : List (Nat × Nat)) :
    sourceLoop w ((n, sr) :: rest) s sa da
      = ⟨true, some n, true, sa ++ [s],
          da ++ dlAttemptsOf s (execute_download_attempt sr).1⟩ := by
  conv_lhs => rw [sourceLoop]
  simp only [hj, ht, hv, if_true]

theorem sourceLoop_cons_some_fail {sr : Option (List Entry)} {j : Nat}
    (hj : (execute_download_attempt sr).2 = some j)
    {w : World} {s : Nat} (h : (w.transcodeOk s j && w.validateOk s j) = false)
    (n : String) (rest : List (String × Option (List Entry)))
    (sa : List Nat) (da : List (Nat × Nat)) :
    sourceLoop w ((n, sr) :: rest) s sa da
      = sourceLoop w rest (s + 1) (sa ++ [s])
          (da ++ dlAttemptsOf s (execute_download_attempt sr).1) := by
  conv_lhs => rw [sourceLoop]
  simp only [hj]
  by_cases ht : w.transcodeOk s j = true
  · have hv : w.validateOk s j = false := by
      cases hvv : w.validateOk s j
      · rfl
      · rw [ht, hvv] at h
        exact absurd h (by simp)
    simp [ht, hv]
  · simp only [Bool.not_eq_true] at ht
    simp [ht]

/-- The download attempts recorded against the SoundCloud source. -/
def dl0 (w : World) : List (Nat × Nat) :=
  dlAttemptsOf 0 (execute_download_attempt w.searchSoundCloud).1

/-- The download attempts recorded against the YouTube source. -/
def dl1 (w : World) : List (Nat × Nat) :=
  dlAttemptsOf 1 (execute_download_attempt w.searchYouTube).1

/-- Result of `download_song` when every source is exhausted. -/
def exhaustedResult (w : World) : DSResult :=
  ⟨false, none, false, [0, 1], dl0 w ++ dl1 w⟩

/-- Outcome of the YouTube iteration as a function of the YouTube winning
candidate index. -/
def ytStep (w : World) : Option Nat → DSResult
  | some j1 =>
    if w.transcodeOk 1 j1 && w.validateOk 1 j1 then
      ⟨true, some "YouTube", true, [0, 1], dl0 w ++ dl1 w⟩
    else exhaustedResult w
  | none => exhaustedResult w

/-- Result of `download_song` from the YouTube iteration onward. -/
def afterSC (w : World) : DSResult :=
  ytStep w (execute_download_attempt w.searchYouTube).2

/-- Outcome of the SoundCloud iteration as a function of the SoundCloud
winning candidate index. -/
def scStep (w : World) : Option Nat → DSResult
  | some j0 =>
    if w.transcodeOk 0 j0 && w.validateOk 0 j0 then
      ⟨true, some "SoundCloud", true, [0], dl0 w⟩
    else afterSC w
  | none => afterSC w

/-- Closed-form evaluation of the two-source loop. -/
def twoSourceEval (w : World) : DSResult :=
  scStep w (execute_download_attempt w.searchSoundCloud).2

theorem download_song_acquire {w : World}
    (h : (w.finalExists && w.existingValid) = false) :
    download_song w = sourceLoop w (sourcesToTry w) 0 [] [] := by
  unfold download_song
  rw [if_neg (by simp [h])]

theorem afterSC_eval (w : World) :
    sourceLoop w [("YouTube", w.searchYouTube)] 1 [0] (dl0 w) = afterSC w := by
  unfold afterSC
  cases h1 : (execute_download_attempt w.searchYouTube).2 with
  | none =>
    rw [sourceLoop_cons_none h1, sourceLoop_nil]
    rfl
  | some j1 =>
    by_cases htv : (w.transcodeOk 1 j1 && w.validateOk 1 j1) = true
    · have ht : w.transcodeOk 1 j1 = true := by
        cases htt : w.transcodeOk 1 j1
        · rw [htt] at htv; exact absurd htv (by simp)
        · rfl
      have hv : w.validateOk 1 j1 = true := by
        cases hvv : w.validateOk 1 j1
        · rw [ht, hvv] at htv; exact absurd htv (by simp)
        · rfl
      rw [sourceLoop_cons_some_success h1 ht hv]
      simp only [ytStep, if_pos htv]
      rfl
    · rw [sourceLoop_cons_some_fail h1 (by simpa using htv), sourceLoop_nil]
      simp only [ytStep, if_neg htv]
      rfl

theorem download_song_eval {w : World}
    (hne : (w.finalExists && w.existingValid) = false) :
    download_song w = twoSourceEval w := by
  rw [download_song_acquire hne]
  unfold sourcesToTry twoSourceEval
  cases h0 : (execute_download_attempt w.searchSoundCloud).2 with
  | none =>
    rw [sourceLoop_cons_none h0]
    exact afterSC_eval w
  | some j0 =>
    by_cases htv : (w.transcodeOk 0 j0 && w.validateOk 0 j0) = true
    · have ht : w.transcodeOk 0 j0 = true := by
        cases htt : w.transcodeOk 0 j0
        · rw [htt] at htv; exact absurd htv (by simp)
        · rfl
      have hv : w.validateOk 0 j0 = true := by
        cases hvv : w.validateOk 0 j0
        · rw [ht, hvv] at htv; exact absurd htv (by simp)
        · rfl
      rw [sourceLoop_cons_some_success h0 ht hv]
      simp only [scStep, if_pos htv]
      rfl
    · rw [sourceLoop_cons_some_fail h0 (by simpa using htv)]
      simp only [scStep, if_neg htv]
      exact afterSC_eval w

theorem twoSourceEval_sc_success {w : World} {j : Nat}
    (hj : (execute_download_attempt w.searchSoundCloud).2 = some j)
    (htv : (w.transcodeOk 0 j && w.validateOk 0 j) = true) :
    twoSourceEval w = ⟨true, some "SoundCloud", true, [0], dl0 w⟩ := by
  unfold twoSourceEval
  rw [hj]
  simp only [scStep, if_pos htv]

theorem twoSourceEval_sc_none {w : World}
    (hj : (execute_download_attempt w.searchSoundCloud).2 = none) :
    twoSourceEval w = afterSC w := by
  unfold twoSourceEval
  rw [hj]
  rfl

theorem twoSourceEval_sc_fail {w : World} {j : Nat}
    (hj : (execute_download_attempt w.searchSoundCloud).2 = some j)
    (htv : (w.transcodeOk 0 j && w.validateOk 0 j) = false) :
    twoSourceEval w = afterSC w := by
  unfold twoSourceEval
  rw [hj]
  simp only [scStep, if_neg (by simp [htv] : ¬(w.transcodeOk 0 j && w.validateOk 0 j) = true)]

theorem afterSC_yt_success {w : World} {j : Nat}
    (hj : (execute_download_attempt w.searchYouTube).2 = some j)
    (htv : (w.transcodeOk 1 j && w.validateOk 1 j) = true) :
    afterSC w = ⟨true, some "YouTube", true, [0, 1], dl0 w ++ dl1 w⟩ := by
  unfold afterSC
  rw [hj]
  simp only [ytStep, if_pos htv]

theorem afterSC_yt_fail {w : World} {j : Nat}
    (hj : (execute_download_attempt w.searchYouTube).2 = some j)
    (htv : (w.transcodeOk 1 j && w.validateOk 1 j) = false) :
    afterSC w = exhaustedResult w := by
  unfold afterSC
  rw [hj]
  simp only [ytStep,
    if_neg (by simp [htv] : ¬(w.transcodeOk 1 j && w.validateOk 1 j) = true)]

theorem ytStep_searches (w : World) (o : Option Nat) :
    (ytStep w o).searches = [0, 1] := by
  cases o with
  | none => rfl
  | some j1 =>
    by_cases htv : (w.transcodeOk 1 j1 && w.validateOk 1 j1) = true
    · simp only [ytStep, if_pos htv]
    · simp only [ytStep, if_neg htv]
      rfl

theorem ytStep_dls (w : World) (o : Option Nat) :
    (ytStep w o).dls = dl0 w ++ dl1 w := by
  cases o with
  | none => rfl
  | some j1 =>
    by_cases htv : (w.transcodeOk 1 j1 && w.validateOk 1 j1) = true
    · simp only [ytStep, if_pos htv]
    · simp only [ytStep, if_neg htv]
      rfl

theorem ytStep_file (w : World) (o : Option Nat) :
    (ytStep w o).finalFileExists = (ytStep w o).success := by
  cases o with
  | none => rfl
  | some j1 =>
    by_cases htv : (w.transcodeOk 1 j1 && w.validateOk 1 j1) = true
    · simp only [ytStep, if_pos htv]
    · simp only [ytStep, if_neg htv]
      rfl

theorem afterSC_searches (w : World) : (afterSC w).searches = [0, 1] :=
  ytStep_searches w _

theorem afterSC_dls (w : World) : (afterSC w).dls = dl0 w ++ dl1 w :=
  ytStep_dls w _

theorem afterSC_file (w : World) :
    (afterSC w).finalFileExists = (afterSC w).success :=
  ytStep_file w _

theorem twoSourceEval_file (w : World) :
    (twoSourceEval w).finalFileExists = (twoSourceEval w).success := by
  unfold twoSourceEval
  cases h0 : (execute_download_attempt w.searchSoundCloud).2 with
  | none => exact afterSC_file w
  | some j0 =>
    by_cases htv : (w.transcodeOk 0 j0 && w.validateOk 0 j0) = true
    · simp only [scStep, if_pos htv]
    · simp only [scStep, if_neg htv]
      exact afterSC_file w

theorem pairwise_dl01 (w : World) :
    List.Pairwise (fun p q : Nat × Nat => p.1 < q.1 ∨ (p.1 = q.1 ∧ p.2 < q.2))
      (dl0 w ++ dl1 w) := by
  rw [List.pairwise_append]
  refine ⟨dlAttemptsOf_pairwise (eda_pairwise _),
    dlAttemptsOf_pairwise (eda_pairwise _), ?_⟩
  intro a ha b hb
  left
  rw [(mem_dlAttemptsOf ha).1, (mem_dlAttemptsOf hb).1]
  exact Nat.zero_lt_one

/-! ### Claims C1, C4, C5, C6 : the orchestrator -/

/-- World with an existing valid artifact and a sidecar whose bytes are
not valid UTF-8. -/
def wC5x : World :=
  ⟨true, true, SidecarState.notUtf8, none, none, fun _ _ => false, fun _ _ => false⟩

/-- Counterexample for C5 as stated: at `wC5x` the final artifact exists
and validates, and the sidecar is unreadable — its bytes are not valid
UTF-8, so `f.read()` inside `json.load` raises `UnicodeDecodeError`,
which the clause `except (json.JSONDecodeError, PermissionError, OSError)`
does not catch. The call raises instead of returning the pair
`(path, "Unknown/Existing")`. -/
theorem c5_counterexample :
    wC5x.finalExists = true ∧ wC5x.existingValid = true ∧
      download_song_checked wC5x = Except.error () :=
  ⟨rfl, rfl, rfl⟩

/-- Claim C5 as amended: when the final artifact already exists and
validates against the expected duration, a sidecar that is missing, or
unreadable/unparseable for one of the reasons the except clause catches
(invalid JSON, permission or OS error), yields the pair with the sentinel
source `"Unknown/Existing"` without raising and without any search or
download network activity; but a sidecar whose bytes are not valid UTF-8
makes the read raise `UnicodeDecodeError`, which is not in the caught
tuple and escapes `download_song`. -/
theorem c5_amended_existing_artifact_sidecar :
    ∀ (w : World), w.finalExists = true → w.existingValid = true →
      ((w.sidecar = SidecarState.missing ∨ w.sidecar = SidecarState.corrupt) →
        download_song_checked w
          = Except.ok ⟨true, some "Unknown/Existing", true, [], []⟩) ∧
      (w.sidecar = SidecarState.notUtf8 →
        download_song_checked w = Except.error ()) := by
  intro w h1 h2
  have hc : (w.finalExists && w.existingValid) = true := by
    rw [h1, h2]
    rfl
  constructor
  · intro h3
    unfold download_song_checked
    rw [if_pos hc]
    rcases h3 with h3 | h3 <;> rw [h3] <;> rfl
  · intro h3
    unfold download_song_checked
    rw [if_pos hc, h3]
    rfl

/-- Witness world for the amended C5: existing valid artifact, corrupt
(caught-failure) sidecar. -/
def wC5 : World :=
  ⟨true, true, SidecarState.corrupt, none, none, fun _ _ => false, fun _ _ => false⟩

/-- Witness for the amended C5 at the concrete worlds `wC5` and `wC5x`. -/
theorem c5_witness :
    download_song_checked wC5
        = Except.ok ⟨true, some "Unknown/Existing", true, [], []⟩ ∧
      download_song_checked wC5x = Except.error () := by
  constructor
  · exact (c5_amended_existing_artifact_sidecar wC5 rfl rfl).1 (Or.inr rfl)
  · exact (c5_amended_existing_artifact_sidecar wC5x rfl rfl).2 rfl

/-- Claim C6: the candidate prefilter decision. A reported duration
strictly below 45 seconds rejects the candidate with no download; a
successful probe with a determinate bitrate (abr, falling back to tbr only
when the stream has no video track) below 128 kbps rejects the candidate
with no download; a successful probe with no bitrate figure does not
reject — the download is attempted; a failed probe removes the candidate
(no download is attempted and it can never be the winner). -/
theorem c6_prefilter_decision :
    ∀ (e : Entry),
      (∀ d, e.durationS = some d → d < MIN_DURATION_PREFILTER_SECONDS →
        isDlAttempt (entryDecision e) = false) ∧
      (∀ p a, e.probe = some p → effectiveAbr p = some a →
        a < MIN_AUDIO_BITRATE_KBPS → isDlAttempt (entryDecision e) = false) ∧
      (e.hasUrl = true → durationTooShort e = false → ∀ p, e.probe = some p →
        effectiveAbr p = none → isDlAttempt (entryDecision e) = true) ∧
      (e.hasUrl = true → durationTooShort e = false → e.probe = none →
        entryDecision e = CandDecision.probeFailed) := by
  intro e
  refine ⟨?_, ?_, ?_, ?_⟩
  · intro d hd hlt
    unfold entryDecision
    by_cases hu : e.hasUrl = false
    · rw [if_pos hu]
      rfl
    · rw [if_neg hu]
      have hshort : durationTooShort e = true := by
        unfold durationTooShort
        rw [hd]
        simp [hlt]
      rw [if_pos hshort]
      rfl
  · intro p a hp ha hlt
    unfold entryDecision
    by_cases hu : e.hasUrl = false
    · rw [if_pos hu]
      rfl
    · rw [if_neg hu]
      by_cases hs : durationTooShort e = true
      · rw [if_pos hs]
        rfl
      · rw [if_neg hs, hp]
        simp only [ha, if_pos hlt]
        rfl
  · intro hu hs p hp ha
    unfold entryDecision
    rw [if_neg (by rw [hu]; simp), if_neg (by rw [hs]; simp), hp]
    simp only [ha]
    cases e.dl <;> rfl
  · intro hu hs hp
    unfold entryDecision
    rw [if_neg (by rw [hu]; simp), if_neg (by rw [hs]; simp), hp]

/-- Witness for C6 at four concrete candidates, one per clause. -/
theorem c6_witness :
    isDlAttempt (entryDecision
      ⟨true, some 20, some ⟨some 320, false, none⟩, DlOutcome.ok⟩) = false ∧
    isDlAttempt (entryDecision
      ⟨true, none, some ⟨some 64, false, none⟩, DlOutcome.ok⟩) = false ∧
    isDlAttempt (entryDecision
      ⟨true, none, some ⟨none, false, none⟩, DlOutcome.ok⟩) = true ∧
    entryDecision ⟨true, none, none, DlOutcome.ok⟩
      = CandDecision.probeFailed := by
  refine ⟨?_, ?_, ?_, ?_⟩
  · exact (c6_prefilter_decision _).1 20 rfl (by decide)
  · exact (c6_prefilter_decision _).2.1 ⟨some 64, false, none⟩ 64 rfl rfl (by decide)
  · exact (c6_prefilter_decision _).2.2.1 rfl rfl ⟨none, false, none⟩ rfl rfl
  · exact (c6_prefilter_decision _).2.2.2 rfl rfl rfl

/-- Claim C4: with no valid pre-existing artifact, sources are attempted
strictly in the configured priority order (SoundCloud then YouTube, each
searched at most once), download attempts are ordered by source priority
and, within a source, by candidate rank; a SoundCloud candidate that
transcodes and validates short-circuits the run (YouTube is never
searched) with `sourceName` SoundCloud and no download attempt after the
winning candidate; and when SoundCloud produces no downloadable candidate
while YouTube does and it validates, the recorded source is YouTube with
each source searched exactly once. -/
theorem c4_source_priority_and_short_circuit :
    ∀ (w : World), (w.finalExists && w.existingValid) = false →
      ((download_song w).searches = [0] ∨ (download_song w).searches = [0, 1]) ∧
      List.Pairwise (fun p q : Nat × Nat => p.1 < q.1 ∨ (p.1 = q.1 ∧ p.2 < q.2))
        (download_song w).dls ∧
      (∀ j, (execute_download_attempt w.searchSoundCloud).2 = some j →
        w.transcodeOk 0 j = true → w.validateOk 0 j = true →
        (download_song w).sourceName = some "SoundCloud" ∧
          (download_song w).searches = [0] ∧
          ∃ pre, (download_song w).dls = pre ++ [(0, j)]) ∧
      ((execute_download_attempt w.searchSoundCloud).2 = none →
        ∀ j, (execute_download_attempt w.searchYouTube).2 = some j →
        w.transcodeOk 1 j = true → w.validateOk 1 j = true →
        (download_song w).sourceName = some "YouTube" ∧
          (download_song w).searches = [0, 1] ∧
          ∃ pre, (download_song w).dls = pre ++ [(1, j)]) := by
  intro w hne
  rw [download_song_eval hne]
  refine ⟨?_, ?_, ?_, ?_⟩
  · unfold twoSourceEval
    cases h0 : (execute_download_attempt w.searchSoundCloud).2 with
    | none => exact Or.inr (afterSC_searches w)
    | some j0 =>
      by_cases htv : (w.transcodeOk 0 j0 && w.validateOk 0 j0) = true
      · simp only [scStep, if_pos htv]
        exact Or.inl (by trivial)
      · simp only [scStep, if_neg htv]
        exact Or.inr (afterSC_searches w)
  · unfold twoSourceEval
    cases h0 : (execute_download_attempt w.searchSoundCloud).2 with
    | none =>
      rw [show scStep w none = afterSC w from rfl, afterSC_dls]
      exact pairwise_dl01 w
    | some j0 =>
      by_cases htv : (w.transcodeOk 0 j0 && w.validateOk 0 j0) = true
      · simp only [scStep, if_pos htv]
        exact dlAttemptsOf_pairwise (eda_pairwise _)
      · simp only [scStep, if_neg htv]
        rw [afterSC_dls]
        exact pairwise_dl01 w
  · intro j hj ht hv
    rw [twoSourceEval_sc_success hj (by rw [ht, hv]; rfl)]
    refine ⟨rfl, rfl, ?_⟩
    obtain ⟨pre, heq, _⟩ := eda_winner hj
    exact ⟨dlAttemptsOf 0 pre, dlAttemptsOf_winner heq⟩
  · intro h0 j hj ht hv
    rw [twoSourceEval_sc_none h0, afterSC_yt_success hj (by rw [ht, hv]; rfl)]
    refine ⟨rfl, rfl, ?_⟩
    obtain ⟨pre, heq, _⟩ := eda_winner hj
    refine ⟨dl0 w ++ dlAttemptsOf 1 pre, ?_⟩
    show dl0 w ++ dl1 w = dl0 w ++ dlAttemptsOf 1 pre ++ [(1, j)]
    rw [show dl1 w = dlAttemptsOf 1 pre ++ [(1, j)] from dlAttemptsOf_winner heq,
      List.append_assoc]

/-- Witness world for C4: SoundCloud search fails, YouTube returns one
downloadable candidate that transcodes and validates. -/
def wC4 : World :=
  ⟨false, false, SidecarState.missing, none,
    some [⟨true, none, some ⟨some 320, false, none⟩, DlOutcome.ok⟩],
    fun _ _ => true, fun _ _ => true⟩

/-- Witness for C4: the recorded source is YouTube and each source was
searched exactly once, in priority order. -/
theorem c4_witness :
    (download_song wC4).sourceName = some "YouTube" ∧
      (download_song wC4).searches = [0, 1] := by
  obtain ⟨_, _, _, h4⟩ := c4_source_priority_and_short_circuit wC4 rfl
  obtain ⟨ha, hb, _⟩ := h4 rfl 0 (by decide) rfl rfl
  exact ⟨ha, hb⟩

/-- A candidate that passes every prefilter and downloads successfully. -/
def okEntry : Entry :=
  ⟨true, none, some ⟨some 320, false, none⟩, DlOutcome.ok⟩

/-- Counterexample world for C1: SoundCloud returns three downloadable
candidates, transcoding always fails, YouTube returns no candidates. -/
def wC1 : World :=
  ⟨false, false, SidecarState.missing, some [okEntry, okEntry, okEntry],
    some [], fun _ _ => false, fun _ _ => true⟩

/-- Counterexample for C1 as stated: in `wC1` the SoundCloud source returns
3 candidates and every candidate would fail transcoding, yet only the
first candidate is ever attempted — candidates 1 and 2 are never tried —
and the orchestrator has already advanced to the next source. So a
transcode failure is not treated as a candidate failure that advances to
the next candidate of the same source. -/
theorem c1_counterexample :
    (download_song wC1).dls = [(0, 0)] ∧
      ((0, 1) ∈ (download_song wC1).dls → False) ∧
      (download_song wC1).searches = [0, 1] ∧
      (download_song wC1).finalFileExists = false := by
  decide

/-- Claim C1 as amended: for either source, when the source's first
successfully downloaded candidate fails transcoding OR validation, the
orchestrator advances to the NEXT SOURCE (for the last source, the run
ends exhausted), skipping the remaining candidates of the current source
— only prefilter and download failures advance to the next candidate
within a source; and when nothing succeeds, no partial file remains at
the final artifact path. -/
theorem c1_amended_failure_advances_source :
    ∀ (w : World), (w.finalExists && w.existingValid) = false →
      (∀ j, (execute_download_attempt w.searchSoundCloud).2 = some j →
        (w.transcodeOk 0 j && w.validateOk 0 j) = false →
        (download_song w).searches = [0, 1] ∧
        (∀ p ∈ (download_song w).dls, p.1 = 0 → p.2 ≤ j)) ∧
      (((execute_download_attempt w.searchSoundCloud).2 = none ∨
          ∃ j0, (execute_download_attempt w.searchSoundCloud).2 = some j0 ∧
            (w.transcodeOk 0 j0 && w.validateOk 0 j0) = false) →
        ∀ j, (execute_download_attempt w.searchYouTube).2 = some j →
        (w.transcodeOk 1 j && w.validateOk 1 j) = false →
        (download_song w).success = false ∧
        (download_song w).sourceName = none ∧
        (download_song w).finalFileExists = false ∧
        (∀ p ∈ (download_song w).dls, p.1 = 1 → p.2 ≤ j)) ∧
      ((download_song w).success = false →
        (download_song w).finalFileExists = false) := by
  intro w hne
  refine ⟨?_, ?_, ?_⟩
  · intro j hj htv
    rw [download_song_eval hne, twoSourceEval_sc_fail hj htv]
    refine ⟨afterSC_searches w, ?_⟩
    intro p hp hp0
    rw [afterSC_dls] at hp
    rcases List.mem_append.mp hp with h1 | h1
    · obtain ⟨_, d, h1b, _⟩ := mem_dlAttemptsOf h1
      exact eda_winner_bound hj (p.2, d) h1b
    · have h2 := (mem_dlAttemptsOf h1).1
      rw [hp0] at h2
      exact absurd h2 (by decide)
  · intro h0 j hj htv
    have hd : download_song w = exhaustedResult w := by
      rcases h0 with h0 | ⟨j0, hj0, htv0⟩
      · rw [download_song_eval hne, twoSourceEval_sc_none h0,
          afterSC_yt_fail hj htv]
      · rw [download_song_eval hne, twoSourceEval_sc_fail hj0 htv0,
          afterSC_yt_fail hj htv]
    rw [hd]
    refine ⟨rfl, rfl, rfl, ?_⟩
    intro p hp hp1
    have hp2 : p ∈ dl0 w ++ dl1 w := hp
    rcases List.mem_append.mp hp2 with h1 | h1
    · have h2 := (mem_dlAttemptsOf h1).1
      rw [hp1] at h2
      exact absurd h2 (by decide)
    · obtain ⟨_, d, h1b, _⟩ := mem_dlAttemptsOf h1
      exact eda_winner_bound hj (p.2, d) h1b
  · intro hs
    rw [download_song_eval hne] at hs ⊢
    rw [twoSourceEval_file]
    exact hs

/-- Witness world for the amended C1: both sources return downloadable
candidates (SoundCloud three, YouTube one), transcoding succeeds but
VALIDATION always fails. -/
def wC1v : World :=
  ⟨false, false, SidecarState.missing, some [okEntry, okEntry, okEntry],
    some [okEntry], fun _ _ => true, fun _ _ => false⟩

/-- Witness for the amended C1 at the concrete world `wC1v`: a validation
failure at the SoundCloud winner advances to YouTube skipping the
remaining SoundCloud candidates, a validation failure at the YouTube
winner ends the run exhausted skipping its remaining candidates, and no
partial file remains. -/
theorem c1_amended_witness :
    (download_song wC1v).searches = [0, 1] ∧
      (∀ p ∈ (download_song wC1v).dls, p.1 = 0 → p.2 ≤ 0) ∧
      (download_song wC1v).success = false ∧
      (∀ p ∈ (download_song wC1v).dls, p.1 = 1 → p.2 ≤ 0) ∧
      (download_song wC1v).finalFileExists = false := by
  obtain ⟨ha, hb, hc⟩ := c1_amended_failure_advances_source wC1v rfl
  obtain ⟨h1, h2⟩ := ha 0 (by decide) rfl
  obtain ⟨h3, _, h5, h4⟩ := hb (Or.inr ⟨0, by decide, rfl⟩) 0 (by decide) rfl
  exact ⟨h1, h2, h3, h4, h5⟩
